import Mathlib

/-!
Verification of the ODM field-mapping engine (`src/odm_controller.py`).

Shallow embedding conventions:
* Python values are modelled by the inductive `Value`.  Python `float` is
  modelled by `ℚ` (the claims under study concern which values coerce and how
  errors propagate, never IEEE-754 rounding).
* Python `dict`s appearing in the mapping document and in the built request are
  modelled as ordered association lists `List (String × Value)`; JSON object
  keys are always strings, so lookups are keyed by `String`.  `dictSet` models
  Python's `d[k] = v` (update in place, else append), `dictGet` models
  `d.get(k)`, `dictPop` models `d.pop(k, None)`.
* Raised exceptions are modelled with `Except PyErr`.  The spec's abstract
  error taxonomy is used for the constructor names (`InvalidDateError`,
  `TypeCoercionError`, ...); in the Python source these are `ValueError` /
  `TypeError` / `RuntimeError` carrying messages.
* `uuid4().hex[:12]` is modelled by an explicit `freshHex : String` argument;
  iteration order of the Python `set` built from `required_odm` is modelled by
  an explicit `setOrder` argument (CPython string hashing is randomized per
  process, so that order is arbitrary; within one process it is fixed, so the
  same `setOrder` is used for repeated calls on one engine).
* `float(...)` on strings is modelled by a decimal parser covering signed
  integer and decimal-point literals (the forms exercised by the mapping
  engine); exponents, `inf`/`nan` and underscore separators are outside the
  modelled domain.
* Native `date` / `datetime` inputs are both modelled by `Value.pydate`
  (`_normalize_date` immediately drops the time-of-day of a `datetime`).
-/

/-- Model of the Python values flowing through the engine. -/
inductive Value where
  | null : Value
  | str (s : String) : Value
  | int (n : Int) : Value
  | float (q : ℚ) : Value
  | bool (b : Bool) : Value
  | pydate (y m d : Nat) : Value
  | list (l : List Value) : Value
  | dict (m : List (String × Value)) : Value
deriving Repr

/-- The engine's error taxonomy (spec section 7).  In the Python source these
are `ValueError` / `TypeError` / `RuntimeError` with messages. -/
inductive PyErr where
  | invalidDate (msg : String) : PyErr
  | typeCoercion (msg : String) : PyErr
  | unsupportedVarType (vtype : String) : PyErr
  | missingRequired (names : List String) : PyErr
  | noRequestBuilt : PyErr
  -- a raw Python `TypeError` outside the spec's taxonomy: `dict.get` hashing
  -- an unhashable key at transform steps 2 and 6
  | typeError (msg : String) : PyErr
deriving Repr, DecidableEq

abbrev Dict := List (String × Value)

/-- `d.get(k)` on a string-keyed Python dict (first, hence unique, match). -/
def dictGet : Dict → String → Option Value
  | [], _ => none
  | p :: rest, k => if p.1 = k then some p.2 else dictGet rest k

/-- `k in d` on a string-keyed Python dict. -/
def dictHasKey (d : Dict) (k : String) : Bool :=
  (dictGet d k).isSome

/-- `d[k] = v`: update the existing entry in place, otherwise append. -/
def dictSet (d : Dict) (k : String) (v : Value) : Dict :=
  if dictHasKey d k then
    d.map (fun p => if p.1 = k then (k, v) else p)
  else
    d ++ [(k, v)]

/-- `d.pop(k)`: remove the entry for `k` (keys are unique in a Python dict). -/
def dictPop (d : Dict) (k : String) : Dict :=
  d.filter (fun p => ¬ p.1 = k)

/-- `s.strip()` (whitespace from both ends).  Implemented over the character
list so that concrete instances reduce inside the kernel. -/
def strTrim (s : String) : String :=
  String.mk (((s.toList.dropWhile Char.isWhitespace).reverse.dropWhile
    Char.isWhitespace).reverse)

/-- `s[:n]`. -/
def strTake (s : String) (n : Nat) : String :=
  String.mk (s.toList.take n)

/-- Python truthiness (`bool(v)` / use in an `if` or `or`). -/
def truthy : Value → Bool
  | Value.null => false
  | Value.str s => s ≠ ""
  | Value.int n => n ≠ 0
  | Value.float q => q ≠ 0
  | Value.bool b => b
  | Value.pydate _ _ _ => true
  | Value.list l => ¬ l.isEmpty
  | Value.dict m => ¬ m.isEmpty

/-- `value is None or (isinstance(value, str) and value.strip() == "")`. -/
def isBlankValue : Value → Bool
  | Value.null => true
  | Value.str s => strTrim s = ""
  | _ => false

/-- Digits to a natural number (most significant first). -/
def natOfDigits (cs : List Char) : Nat :=
  cs.foldl (fun a c => a * 10 + (c.toNat - 48)) 0

/-- Unsigned decimal literal: `digits`, `digits.digits`, `digits.`, `.digits`.
(The forms of Python float literals exercised by the engine; exponents,
`inf`/`nan` and `_` separators are outside the modelled domain.) -/
def parseDecimal (cs : List Char) : Option ℚ :=
  let ip := cs.takeWhile Char.isDigit
  let rest := cs.dropWhile Char.isDigit
  match rest with
  | [] => if ip.isEmpty then none else some ((natOfDigits ip : ℚ))
  | '.' :: frac =>
    if frac.all Char.isDigit ∧ ¬ (ip.isEmpty ∧ frac.isEmpty) then
      some ((natOfDigits ip : ℚ) + (natOfDigits frac : ℚ) / ((10 : ℚ) ^ frac.length))
    else none
  | _ => none

/-- Python `float(s)` on a string: strip whitespace, optional sign, decimal. -/
def parsePyFloat (s : String) : Option ℚ :=
  match (strTrim s).toList with
  | '+' :: cs => parseDecimal cs
  | '-' :: cs => (parseDecimal cs).map (fun q => -q)
  | cs => parseDecimal cs

/-- Python `int(s)` on a string: strip whitespace, optional sign, digits. -/
def parsePyInt (s : String) : Option Int :=
  let core : List Char → Option Nat := fun cs =>
    if cs.isEmpty ∨ ¬ cs.all Char.isDigit then none else some (natOfDigits cs)
  match (strTrim s).toList with
  | '+' :: cs => (core cs).map (fun n => (n : Int))
  | '-' :: cs => (core cs).map (fun n => -(n : Int))
  | cs => (core cs).map (fun n => (n : Int))

/-- Python `float(v)`: `none` models the raised `TypeError`/`ValueError`. -/
def pyFloat : Value → Option ℚ
  | Value.float q => some q
  | Value.int n => some ((n : ℚ))
  | Value.bool b => some (if b then 1 else 0)
  | Value.str s => parsePyFloat s
  | _ => none

/-- Truncation toward zero, as Python `int(float)`. -/
def ratTrunc (q : ℚ) : Int :=
  if q < 0 then -((Int.floor (-q))) else Int.floor q

/-- Python `int(v)`: `none` models the raised `TypeError`/`ValueError`. -/
def pyInt : Value → Option Int
  | Value.int n => some n
  | Value.float q => some (ratTrunc q)
  | Value.bool b => some (if b then 1 else 0)
  | Value.str s => parsePyInt s
  | _ => none

/-- Zero-pad a decimal rendering of `n` to width 2. -/
def pad2 (n : Nat) : String :=
  if n < 10 then "0" ++ toString n else toString n

/-- Zero-pad a decimal rendering of `n` to width 4. -/
def pad4 (n : Nat) : String :=
  if n < 10 then "000" ++ toString n
  else if n < 100 then "00" ++ toString n
  else if n < 1000 then "0" ++ toString n
  else toString n

/-- `date.strftime("%Y-%m-%d")` (the canonical ODM date format). -/
def fmtDate (y m d : Nat) : String :=
  pad4 y ++ "-" ++ pad2 m ++ "-" ++ pad2 d

/-- Best-effort decimal rendering of a model float.  Only the integral case is
relied on by any claim; the engine never serializes a non-integral float in
the verified properties. -/
def floatRepr (q : ℚ) : String :=
  if q.den = 1 then toString q.num ++ ".0"
  else toString q.num ++ "/" ++ toString q.den

/-- Python `str(v)` for the value shapes the engine passes to it.  `str` of a
list/dict is never exercised by the mapped collections under study. -/
def pyStr : Value → String
  | Value.str s => s
  | Value.int n => toString n
  | Value.float q => floatRepr q
  | Value.bool b => if b then "True" else "False"
  | Value.null => "None"
  | Value.pydate y m d => fmtDate y m d
  | Value.list _ => "<list>"
  | Value.dict _ => "<dict>"

/-- Python iteration `[x for x in v]` for non-list values: a string iterates
over its characters, a dict over its keys; numbers, booleans, dates and `None`
are not iterable (`none` models the raised `TypeError`). -/
def pyIter : Value → Option (List Value)
  | Value.list l => some l
  | Value.str s => some (s.toList.map (fun c => Value.str (String.mk [c])))
  | Value.dict m => some (m.map (fun p => Value.str p.1))
  | _ => none

/-- Leap years of the proleptic Gregorian calendar (Python `datetime`). -/
def isLeap (y : Nat) : Bool :=
  (y % 4 = 0 ∧ y % 100 ≠ 0) ∨ y % 400 = 0

def daysInMonth (y m : Nat) : Nat :=
  if m = 2 then (if isLeap y then 29 else 28)
  else if m = 4 ∨ m = 6 ∨ m = 9 ∨ m = 11 then 30
  else 31

/-- Valid `datetime.date(y, m, d)` arguments. -/
def validDate (y m d : Nat) : Bool :=
  1 ≤ y ∧ y ≤ 9999 ∧ 1 ≤ m ∧ m ≤ 12 ∧ 1 ≤ d ∧ d ≤ daysInMonth y m

/-- Take up to `max` leading digits. -/
def takeDigits : Nat → List Char → List Char × List Char
  | 0, cs => ([], cs)
  | _ + 1, [] => ([], [])
  | n + 1, c :: cs =>
    if c.isDigit then
      let p := takeDigits n cs
      (c :: p.1, p.2)
    else ([], c :: cs)

/-- Run a `strptime` format over the input.  Supported directives are `%Y`,
`%m`, `%d` and `%%` (the ones a date-input format of this engine uses); `%Y`
consumes up to four digits greedily, `%m`/`%d` up to two, literal characters
must match exactly and the whole input must be consumed.  `strptime`'s
defaults `(1900, 1, 1)` seed the accumulator. -/
def runFmt : List Char → List Char → Nat × Nat × Nat → Option (Nat × Nat × Nat)
  | [], [], acc => some acc
  | [], _ :: _, _ => none
  | '%' :: dir :: fmt, input, acc =>
    if dir = 'Y' then
      match takeDigits 4 input with
      | ([], _) => none
      | (ds, rest) => runFmt fmt rest (natOfDigits ds, acc.2.1, acc.2.2)
    else if dir = 'm' then
      match takeDigits 2 input with
      | ([], _) => none
      | (ds, rest) => runFmt fmt rest (acc.1, natOfDigits ds, acc.2.2)
    else if dir = 'd' then
      match takeDigits 2 input with
      | ([], _) => none
      | (ds, rest) => runFmt fmt rest (acc.1, acc.2.1, natOfDigits ds)
    else if dir = '%' then
      match input with
      | '%' :: rest => runFmt fmt rest acc
      | _ => none
    else none
  | c :: fmt, i :: input, acc => if c = i then runFmt fmt input acc else none
  | _ :: _, [], _ => none

/-- `datetime.strptime(s, fmt).date()`: match the format, then validate the
resulting calendar date. -/
def strptimeDate (s fmt : String) : Option (Nat × Nat × Nat) :=
  match runFmt fmt.toList s.toList (1900, 1, 1) with
  | some (y, m, d) =>
    if validDate y m d then some (y, m, d) else none
  | none => none

/-- `date.fromisoformat(s)`: exactly `YYYY-MM-DD` with a valid date. -/
def isoParse10 (s : String) : Option (Nat × Nat × Nat) :=
  match s.toList with
  | [y1, y2, y3, y4, '-', m1, m2, '-', d1, d2] =>
    if [y1, y2, y3, y4, m1, m2, d1, d2].all Char.isDigit then
      let y := natOfDigits [y1, y2, y3, y4]
      let m := natOfDigits [m1, m2]
      let d := natOfDigits [d1, d2]
      if validDate y m d then some (y, m, d) else none
    else none
  | _ => none

/-- `_normalize_date(v, fmt_in)` (source lines 231-243): `None` / `""` map to
`None`; a native date is reformatted; a string is stripped, then parsed
strictly against `fmt_in` when given, else its first 10 characters are parsed
as ISO `YYYY-MM-DD`; anything else is an invalid date.  All failures are
`InvalidDateError`. -/
def normalizeDate (v : Value) (fmtIn : Option String) : Except PyErr Value :=
  if (match v with | Value.null => true | Value.str s => s = "" | _ => false) then
    Except.ok Value.null
  else
    match v with
    | Value.pydate y m d => Except.ok (Value.str (fmtDate y m d))
    | Value.str s0 =>
      let s := strTrim s0
      match fmtIn with
      | some fmt =>
        match strptimeDate s fmt with
        | some (y, m, d) => Except.ok (Value.str (fmtDate y m d))
        | none => Except.error (PyErr.invalidDate s)
      | none =>
        match isoParse10 (strTake s 10) with
        | some (y, m, d) => Except.ok (Value.str (fmtDate y m d))
        | none => Except.error (PyErr.invalidDate s)
    | _ => Except.error (PyErr.invalidDate "bad type")

/-- Step 1 of `_apply_transform` (line 175): blank-value defaulting — when the
incoming value is `None` or a blank string and `"default" in cfg`. -/
def stepDefault (v : Value) (cfg : Dict) : Value :=
  if isBlankValue v then (dictGet cfg "default").getD v else v

/-- Step 2 (lines 179-181): `map_from = cfg.get("map_from") or cfg.get("map")`;
exact substitution when it is a dict.  `dict.get` hashes its key first, so an
unhashable current value (a list or dict, e.g. a list-valued `default`) raises
a `TypeError` here.  The mapping document is parsed JSON, so substitution keys
are strings and a lookup can only hit on a string value. -/
def stepMap (v : Value) (cfg : Dict) : Except PyErr Value :=
  let mf := match dictGet cfg "map_from" with
    | some x => if truthy x then some x else dictGet cfg "map"
    | none => dictGet cfg "map"
  match mf with
  | some (Value.dict m) =>
    match v with
    | Value.list _ => Except.error (PyErr.typeError "unhashable type: list")
    | Value.dict _ => Except.error (PyErr.typeError "unhashable type: dict")
    | Value.str s => Except.ok ((dictGet m s).getD v)
    | _ => Except.ok v
  | _ => Except.ok v

/-- `value.replace(";", ",").split(",")` with per-token strip and blank-token
filtering, as in `_apply_transform` line 185. -/
def splitTokens (s : String) : List String :=
  let rec go : List Char → List Char → List String
    | [], acc => [String.mk acc.reverse]
    | c :: cs, acc =>
      if c = ',' ∨ c = ';' then String.mk acc.reverse :: go cs [] else go cs (c :: acc)
  (go s.toList []).map strTrim |>.filter (fun t => t ≠ "")

/-- Step 3 (lines 184-186): CSV list splitting of string values. -/
def stepSplit (v : Value) (cfg : Dict) : Value :=
  if truthy ((dictGet cfg "split_csv").getD Value.null) then
    match v with
    | Value.str s => Value.list ((splitTokens s).map Value.str)
    | _ => v
  else v

/-- `cfg.get("date_in")` as the optional input format string (the mapping
document is assumed well-typed per spec section 1, so a present `date_in` is a
string). -/
def cfgDateIn (cfg : Dict) : Option String :=
  match dictGet cfg "date_in" with
  | some (Value.str s) => some s
  | _ => none

/-- Step 4 (lines 189-190): date normalization when `"date_in" in cfg` or
`cfg.get("as_date")` is truthy.  The only failing step of the pipeline. -/
def stepDate (v : Value) (cfg : Dict) : Except PyErr Value :=
  if dictHasKey cfg "date_in" ∨ truthy ((dictGet cfg "as_date").getD Value.null) then
    normalizeDate v (cfgDateIn cfg)
  else Except.ok v

/-- ASCII upper-casing over the character list (kernel-reducible). -/
def strUpper (s : String) : String := String.mk (s.toList.map Char.toUpper)

/-- ASCII lower-casing over the character list (kernel-reducible). -/
def strLower (s : String) : String := String.mk (s.toList.map Char.toLower)

/-- Step 5 (lines 193-196): `strip`, then `upper`, then `lower`, each only when
its flag is truthy, and only on string values. -/
def stepCase (v : Value) (cfg : Dict) : Value :=
  match v with
  | Value.str s =>
    let s1 := if truthy ((dictGet cfg "strip").getD Value.null) then strTrim s else s
    let s2 := if truthy ((dictGet cfg "upper").getD Value.null) then strUpper s1 else s1
    let s3 := if truthy ((dictGet cfg "lower").getD Value.null) then strLower s2 else s2
    Value.str s3
  | _ => v

/-- Step 6 (lines 199-200): boolean substitution — `bool_map.get(value,
bool(value))` when `bool_map` is a dict (string-keyed, being parsed JSON).
`dict.get` hashes its key first, so an unhashable current value — e.g. the
list produced by `split_csv` — raises a `TypeError` here. -/
def stepBool (v : Value) (cfg : Dict) : Except PyErr Value :=
  match dictGet cfg "bool_map" with
  | some (Value.dict bm) =>
    match v with
    | Value.list _ => Except.error (PyErr.typeError "unhashable type: list")
    | Value.dict _ => Except.error (PyErr.typeError "unhashable type: dict")
    | Value.str s => Except.ok ((dictGet bm s).getD (Value.bool (truthy v)))
    | _ => Except.ok (Value.bool (truthy v))
  | _ => Except.ok v

/-- Step 7 (lines 203-207): numeric scaling inside `try/except: pass` — when
`"scale" in cfg` and the value is not `None`, multiply the float casts; any
cast failure leaves the value unchanged. -/
def stepScale (v : Value) (cfg : Dict) : Value :=
  match dictGet cfg "scale" with
  | some sc =>
    match v with
    | Value.null => Value.null
    | _ =>
      match pyFloat v, pyFloat sc with
      | some a, some b => Value.float (a * b)
      | _, _ => v
  | none => v

/-- `_apply_transform(value, cfg)` (lines 164-209): the seven optional steps in
their fixed order.  Step 2 and step 6 can raise a `TypeError` on an unhashable
value, step 4 can raise an `InvalidDateError`; no other step fails. -/
def applyTransform (value : Value) (cfg : Dict) : Except PyErr Value :=
  let v1 := stepDefault value cfg
  match stepMap v1 cfg with
  | Except.error e => Except.error e
  | Except.ok v2 =>
    let v3 := stepSplit v2 cfg
    match stepDate v3 cfg with
    | Except.error e => Except.error e
    | Except.ok v4 =>
      match stepBool (stepCase v4 cfg) cfg with
      | Except.error e => Except.error e
      | Except.ok v5 => Except.ok (stepScale v5 cfg)

/-- Append a `{"name": ..., "value": ...}` entry to the collection stored under
`key` (`co.setdefault(key, []).append(...)`; in every call site of the build
the key already holds a list). -/
def appendEntry (co : Dict) (key name : String) (v : Value) : Dict :=
  let cur := match dictGet co key with | some (Value.list l) => l | _ => []
  dictSet co key (Value.list (cur ++ [Value.dict [("name", Value.str name), ("value", v)]]))

/-- The element-wise float coercion of the `list_double` branch.  For a
non-list value the source runs `[float(x) for x in (value or [])]`: a falsy
value iterates as empty, a truthy one is iterated element-wise (characters of
a string; a `TypeError` for non-iterables). -/
def mapFloats : List Value → Option (List ℚ)
  | [] => some []
  | x :: xs =>
    match pyFloat x, mapFloats xs with
    | some q, some qs => some (q :: qs)
    | _, _ => none

def coerceDoubleList (l : List Value) : Except PyErr (List ℚ) :=
  match mapFloats l with
  | some qs => Except.ok qs
  | none => Except.error (PyErr.typeCoercion "could not convert to float")

/-- `_add_var(co, vtype, name, value)` (lines 211-229). -/
def addVar (co : Dict) (vtype name : String) (value : Value) : Except PyErr Dict :=
  match value with
  | Value.null => Except.ok co
  | _ =>
    if vtype = "date" then
      Except.ok (appendEntry co "dateVariables" name (Value.str (pyStr value)))
    else if vtype = "double" then
      match pyFloat value with
      | some q => Except.ok (appendEntry co "doubleVariables" name (Value.float q))
      | none => Except.error (PyErr.typeCoercion "could not convert to float")
    else if vtype = "integer" then
      match pyInt value with
      | some n => Except.ok (appendEntry co "integerVariables" name (Value.int n))
      | none => Except.error (PyErr.typeCoercion "could not convert to int")
    else if vtype = "string" then
      Except.ok (appendEntry co "stringVariables" name (Value.str (pyStr value)))
    else if vtype = "list_double" then
      match value with
      | Value.list l =>
        match coerceDoubleList l with
        | Except.ok qs =>
          Except.ok (appendEntry co "listOfDoubleVariables" name (Value.list (qs.map Value.float)))
        | Except.error e => Except.error e
      | v =>
        if truthy v then
          match pyIter v with
          | some elems =>
            match coerceDoubleList elems with
            | Except.ok qs =>
              Except.ok (appendEntry co "listOfDoubleVariables" name (Value.list (qs.map Value.float)))
            | Except.error e => Except.error e
          | none => Except.error (PyErr.typeCoercion "not iterable")
        else
          Except.ok (appendEntry co "listOfDoubleVariables" name (Value.list []))
    else Except.error (PyErr.unsupportedVarType vtype)

/-- A mapping rule: the shorthand `"odm_name": "source_key"` or a full spec
dict (`isinstance(spec, str)` dispatch at lines 111/138). -/
inductive RuleSpec where
  | shorthand (s : String) : RuleSpec
  | full (d : Dict) : RuleSpec
deriving Repr

/-- `src_key, cfg` extraction (lines 111-115 / 138-142): the shorthand has an
empty cfg; a full spec takes `spec.get("from")` and drops `"from"` from cfg. -/
def splitSpec : RuleSpec → Option Value × Dict
  | RuleSpec.shorthand s => (some (Value.str s), [])
  | RuleSpec.full d => (dictGet d "from", dictPop d "from")

/-- `src_key in external_flat`: the record is string-keyed, so membership can
only hold for a string key (and `None in record` is false). -/
def srcPresent (ext : Dict) (src : Option Value) : Bool :=
  match src with
  | some (Value.str s) => dictHasKey ext s
  | _ => false

/-- `external_flat[src_key]` (only evaluated under `srcPresent`). -/
def extGet (ext : Dict) (src : Option Value) : Value :=
  match src with
  | some (Value.str s) => (dictGet ext s).getD Value.null
  | _ => Value.null

/-- The parsed mapping document, holding the collections the build reads
(`co_fields`, `variables`, `constants`, `required_odm`); the document is
parsed JSON, pre-validated per spec section 1. -/
structure Mapping where
  constants_co_fields : List (String × Value) := []
  constants_variables : List (String × List (String × Value)) := []
  co_fields : List (String × RuleSpec) := []
  -- the document's `variables` key (that word is reserved in Lean 4)
  variableRules : List (String × List (String × RuleSpec)) := []
  required_odm : List String := []

/-- One iteration of the `co_fields` loop (lines 110-124). -/
def processScalarRule (ext : Dict) (acc : Dict × List String)
    (e : String × RuleSpec) : Except PyErr (Dict × List String) :=
  let src := (splitSpec e.2).1
  let cfg := (splitSpec e.2).2
  if srcPresent ext src then
    match applyTransform (extGet ext src) cfg with
    | Except.ok val => Except.ok (dictSet acc.1 e.1 val, acc.2 ++ [e.1])
    | Except.error err => Except.error err
  else
    match dictGet cfg "default" with
    | some d => Except.ok (dictSet acc.1 e.1 d, acc.2 ++ [e.1])
    | none => Except.ok acc

def processScalarRules (ext : Dict) :
    List (String × RuleSpec) → Dict × List String → Except PyErr (Dict × List String)
  | [], acc => Except.ok acc
  | e :: rest, acc =>
    match processScalarRule ext acc e with
    | Except.ok acc1 => processScalarRules ext rest acc1
    | Except.error err => Except.error err

/-- The constant-variables loop (lines 130-133): every entry is added through
`_add_var` and its name recorded as produced. -/
def processConstVarGroup (vt : String) :
    List (String × Value) → Dict × List String → Except PyErr (Dict × List String)
  | [], acc => Except.ok acc
  | e :: rest, acc =>
    match addVar acc.1 vt e.1 e.2 with
    | Except.ok co1 => processConstVarGroup vt rest (co1, acc.2 ++ [e.1])
    | Except.error err => Except.error err

def processConstVars :
    List (String × List (String × Value)) → Dict × List String →
    Except PyErr (Dict × List String)
  | [], acc => Except.ok acc
  | g :: rest, acc =>
    match processConstVarGroup g.1 g.2 acc with
    | Except.ok acc1 => processConstVars rest acc1
    | Except.error err => Except.error err

/-- One iteration of the typed-variable rules loop (lines 137-151). -/
def processVarRule (ext : Dict) (vt : String) (acc : Dict × List String)
    (e : String × RuleSpec) : Except PyErr (Dict × List String) :=
  let src := (splitSpec e.2).1
  let cfg := (splitSpec e.2).2
  if srcPresent ext src then
    match applyTransform (extGet ext src) cfg with
    | Except.ok val =>
      match addVar acc.1 vt e.1 val with
      | Except.ok co1 => Except.ok (co1, acc.2 ++ [e.1])
      | Except.error err => Except.error err
    | Except.error err => Except.error err
  else
    match dictGet cfg "default" with
    | some d =>
      match addVar acc.1 vt e.1 d with
      | Except.ok co1 => Except.ok (co1, acc.2 ++ [e.1])
      | Except.error err => Except.error err
    | none => Except.ok acc

def processVarGroup (ext : Dict) (vt : String) :
    List (String × RuleSpec) → Dict × List String → Except PyErr (Dict × List String)
  | [], acc => Except.ok acc
  | e :: rest, acc =>
    match processVarRule ext vt acc e with
    | Except.ok acc1 => processVarGroup ext vt rest acc1
    | Except.error err => Except.error err

def processVarGroups (ext : Dict) :
    List (String × List (String × RuleSpec)) → Dict × List String →
    Except PyErr (Dict × List String)
  | [], acc => Except.ok acc
  | g :: rest, acc =>
    match processVarGroup ext g.1 g.2 acc with
    | Except.ok acc1 => processVarGroups ext rest acc1
    | Except.error err => Except.error err

/-- The five typed-collection keys, in the order of source lines 127/154. -/
def collectionKeys : List String :=
  ["dateVariables", "doubleVariables", "integerVariables", "stringVariables",
    "listOfDoubleVariables"]

/-- Line 127: initialize the five typed collections to empty lists. -/
def initCollections (co : Dict) : Dict :=
  collectionKeys.foldl (fun c k => dictSet c k (Value.list [])) co

/-- Lines 154-156: drop any typed collection that is falsy (empty). -/
def cleanupCollections (co : Dict) : Dict :=
  collectionKeys.foldl
    (fun c k =>
      match dictGet c k with
      | some v => if truthy v then c else dictPop c k
      | none => c)
    co

/-- Lines 106-107: seed the scalar section with `constants.co_fields`. -/
def seedConstScalars (consts : List (String × Value)) (co : Dict) : Dict :=
  consts.foldl (fun c p => dictSet c p.1 p.2) co

/-- Lines 102-156 of `_build_by_odm_keys`: the `(co, produced_targets)`
computation, a pure function of the record and the mapping. -/
def coPart (ext : Dict) (m : Mapping) : Except PyErr (Dict × List String) :=
  let co0 := seedConstScalars m.constants_co_fields []
  match processScalarRules ext m.co_fields (co0, []) with
  | Except.error e => Except.error e
  | Except.ok (co1, p1) =>
    match processConstVars m.constants_variables (initCollections co1, p1) with
    | Except.error e => Except.error e
    | Except.ok (co2, p2) =>
      match processVarGroups ext m.variableRules (co2, p2) with
      | Except.error e => Except.error e
      | Except.ok (co3, p3) => Except.ok (cleanupCollections co3, p3)

/-- `(self.odm_request or {}).get("__DecisionID__")` (line 159). -/
def prevDecId (slot : Option Value) : Value :=
  match slot with
  | some v =>
    if truthy v then
      match v with
      | Value.dict mm => (dictGet mm "__DecisionID__").getD Value.null
      | _ => Value.null
    else Value.null
  | none => Value.null

/-- Line 159: `decision_id or (self.odm_request or {}).get("__DecisionID__")
or f"Decision_{uuid4().hex[:12]}"` — a truthiness `or` chain; the fresh
uuid-derived token is the explicit `freshHex` argument. -/
def resolveDecId (decisionId : Option String) (slot : Option Value)
    (freshHex : String) : Value :=
  match decisionId with
  | some d =>
    if d ≠ "" then Value.str d
    else
      let prev := prevDecId slot
      if truthy prev then prev else Value.str ("Decision_" ++ freshHex)
  | none =>
    let prev := prevDecId slot
    if truthy prev then prev else Value.str ("Decision_" ++ freshHex)

/-- `_build_by_odm_keys` (lines 95-161): returns the assembled request and the
produced-target list. -/
def buildByOdmKeys (ext : Dict) (m : Mapping) (decisionId : Option String)
    (slot : Option Value) (freshHex : String) :
    Except PyErr (Value × List String) :=
  match coPart ext m with
  | Except.error e => Except.error e
  | Except.ok (co, prod) =>
    let decId := resolveDecId decisionId slot freshHex
    Except.ok (Value.dict [("__DecisionID__", decId), ("coRequest", Value.dict co)], prod)

/-- The engine state: the sole cross-call slot, `self.odm_request`. -/
structure Engine where
  odm_request : Option Value

/-- `odm_controller.__init__` (lines 35-37): a truthy `decision_id` seeds a
stub request; otherwise the slot is empty. -/
def initEngine (decisionId : Option String) : Engine :=
  match decisionId with
  | some d =>
    if d ≠ "" then
      Engine.mk (some (Value.dict [("__DecisionID__", Value.str d), ("coRequest", Value.dict [])]))
    else Engine.mk none
  | none => Engine.mk none

/-- `build_request_from_mapping_file` (lines 47-77): build, then required-field
validation (over the `set` of `required_odm`, iterated in the process's set
order `setOrder`), then store the request in the engine slot.  Returns the
call's result and the updated engine. -/
def buildRequestFromMappingFile (e : Engine) (ext : Dict) (m : Mapping)
    (decisionId : Option String) (validateRequired : Bool) (freshHex : String)
    (setOrder : List String → List String) : Except PyErr Value × Engine :=
  match buildByOdmKeys ext m decisionId e.odm_request freshHex with
  | Except.error err => (Except.error err, e)
  | Except.ok (req, prod) =>
    if validateRequired then
      let missing := (setOrder m.required_odm).filter (fun t => ¬ prod.contains t)
      if missing.isEmpty then (Except.ok req, Engine.mk (some req))
      else (Except.error (PyErr.missingRequired missing), e)
    else (Except.ok req, Engine.mk (some req))

/-- `get_request_json` (lines 82-86): fails when the slot is falsy (`None` or
an empty dict); otherwise serializes the held request.  JSON serialization is
deterministic and injective on the model values, so the request itself stands
for its rendering. -/
def getRequestJson (e : Engine) : Except PyErr Value :=
  match e.odm_request with
  | some v => if truthy v then Except.ok v else Except.error PyErr.noRequestBuilt
  | none => Except.error PyErr.noRequestBuilt

/-! ### Claim-side definitions

Definitions in this block follow the words of the specification (not the
source); they exist to be compared against the source-derived functions
above. -/

/-- Following the spec's words for `FieldResolver`: a rule "produces" its
target iff its source key is present in the record or a default is
configured. -/
def ruleProduces (ext : Dict) (sp : RuleSpec) : Bool :=
  srcPresent ext (splitSpec sp).1 || (dictGet (splitSpec sp).2 "default").isSome

/-- Following the claim's words (C5): a target counts as produced iff some
scalar or typed-variable rule for it resolved from the record or substituted
a configured default.  (Constants are deliberately absent here: the claim
does not count them.) -/
def producedPerClaim (ext : Dict) (m : Mapping) (n : String) : Bool :=
  m.co_fields.any (fun e => e.1 = n && ruleProduces ext e.2)
    || m.variableRules.any (fun g => g.2.any (fun e => e.1 = n && ruleProduces ext e.2))

/-- Following the claim's words (C3): `list_double` coercion that wraps a
scalar as a single-element sequence before coercing element-wise. -/
def listDoubleSpecCoerce (v : Value) : Except PyErr (List ℚ) :=
  match v with
  | Value.list l => coerceDoubleList l
  | _ => coerceDoubleList [v]

/-- The target names of all constant typed-variable entries. -/
def constVarNames (m : Mapping) : List String :=
  m.constants_variables.foldr (fun g acc => g.2.map Prod.fst ++ acc) []

/-- Keys of a model dict. -/
def dictKeys (d : Dict) : List String := d.map Prod.fst

/-- The `name` fields of a typed-collection entry list. -/
def entryNames (l : List Value) : List String :=
  l.map (fun v =>
    match v with
    | Value.dict d =>
      match dictGet d "name" with
      | some (Value.str s) => s
      | _ => ""
    | _ => "")

/-- `isinstance(v, list)`. -/
def isListValue : Value → Bool
  | Value.list _ => true
  | _ => false

/-! ### Concrete fixtures used by counterexamples and witnesses -/

/-- Mapping with two required targets and no rules (claim C1). -/
def mC1 : Mapping := { required_odm := ["b", "a"] }

/-- Mapping with a constant string variable `x` and a mapped string rule for
the same target `x` (claim C2). -/
def mC2 : Mapping :=
  { constants_variables := [("string", [("x", Value.str "A")])]
    variableRules := [("string", [("x", RuleSpec.shorthand "k")])] }

def extC2 : Dict := [("k", Value.str "B")]

/-- Mapping whose only content is a constant string variable `x` (claim C5). -/
def mC5 : Mapping := { constants_variables := [("string", [("x", Value.str "A")])] }

/-- The scalar-section state right after line 127 (all five typed collections
initialized empty). -/
def coInit : Dict := initCollections []

/-- Claim-side notion of sortedness (the spec's "sorted list"): adjacent pairs
in lexicographic order, computed over character lists so that concrete
instances reduce in the kernel. -/
def strLtChars : List Char → List Char → Bool
  | [], [] => false
  | [], _ :: _ => true
  | _ :: _, [] => false
  | a :: as, b :: bs => if a < b then true else if b < a then false else strLtChars as bs

def sortedStrings : List String → Bool
  | [] => true
  | [_] => true
  | a :: b :: rest => (¬ strLtChars b.toList a.toList) && sortedStrings (b :: rest)

/-! ### Theorems -/

/-- **C9.** Date normalization maps `null` and the empty string to `null`
(whatever the configured input format); `"15/08/2023"` with input format
`"%d/%m/%Y"` normalizes to `"2023-08-15"`; `"2021-05-10"` with no input
format normalizes to `"2021-05-10"`. -/
theorem C9_date_normalization :
    (∀ fmt : Option String, normalizeDate Value.null fmt = Except.ok Value.null)
    ∧ (∀ fmt : Option String, normalizeDate (Value.str "") fmt = Except.ok Value.null)
    ∧ normalizeDate (Value.str "15/08/2023") (some "%d/%m/%Y")
        = Except.ok (Value.str "2023-08-15")
    ∧ normalizeDate (Value.str "2021-05-10") none = Except.ok (Value.str "2021-05-10") :=
  ⟨fun _ => rfl, fun _ => rfl, rfl, rfl⟩

/-- **C7, counterexample.** An engine constructed with `decision_id = "X"`
holds a stub request from `__init__` (source lines 35-37), so `get_request_json`
succeeds although no build was ever performed — refuting the claim that
serialization before a successful build always fails with
`NoRequestBuiltError`. -/
theorem C7_counterexample :
    getRequestJson (initEngine (some "X"))
      = Except.ok (Value.dict [("__DecisionID__", Value.str "X"),
          ("coRequest", Value.dict [])]) := rfl

/-- **C7, amended.** Serialization fails with `NoRequestBuiltError` exactly
when the engine's request slot is empty: for an engine constructed without a
truthy `decision_id` and before any successful build.  An engine constructed
with a non-empty `decision_id` starts with a stub request and serializes it
without any build. -/
theorem C7_amended (d : String) (hd : d ≠ "") :
    getRequestJson (initEngine none) = Except.error PyErr.noRequestBuilt
    ∧ getRequestJson (initEngine (some "")) = Except.error PyErr.noRequestBuilt
    ∧ getRequestJson (initEngine (some d))
        = Except.ok (Value.dict [("__DecisionID__", Value.str d),
            ("coRequest", Value.dict [])]) := by
  refine ⟨rfl, rfl, ?_⟩
  simp [initEngine, hd, getRequestJson, truthy]

/-- Witness for `C7_amended` at `d = "X"`. -/
theorem C7_witness :
    getRequestJson (initEngine none) = Except.error PyErr.noRequestBuilt
    ∧ getRequestJson (initEngine (some "")) = Except.error PyErr.noRequestBuilt
    ∧ getRequestJson (initEngine (some "X"))
        = Except.ok (Value.dict [("__DecisionID__", Value.str "X"),
            ("coRequest", Value.dict [])]) :=
  C7_amended "X" (by decide)

/-- **C3, counterexample.** A non-null scalar handed to `list_double` is not
wrapped as a single-element sequence: `_add_var` runs
`[float(x) for x in (value or [])]`, which iterates the scalar itself.  For
the string `"12"` the code yields `[1.0, 2.0]` (its characters coerced one by
one), while the claim's wrap-then-coerce reading demands `[12.0]`. -/
theorem C3_counterexample :
    addVar coInit "list_double" "n" (Value.str "12")
      = Except.ok [("dateVariables", Value.list []), ("doubleVariables", Value.list []),
          ("integerVariables", Value.list []), ("stringVariables", Value.list []),
          ("listOfDoubleVariables", Value.list [Value.dict
            [("name", Value.str "n"), ("value", Value.list [Value.float 1, Value.float 2])]])]
    ∧ listDoubleSpecCoerce (Value.str "12") = Except.ok [12]
    ∧ [(1 : ℚ), 2] ≠ [12] :=
  ⟨rfl, rfl, by decide⟩

/-- **C5, counterexample.** Constant typed-variable entries are also recorded
in `produced_targets` (source line 133): with a mapping holding only the
constant string variable `x` and an empty record, the build succeeds with
`produced = ["x"]`, although no rule resolved a value from the record and no
default was substituted — refuting the claimed "if and only if". -/
theorem C5_counterexample :
    coPart [] mC5
      = Except.ok ([("stringVariables", Value.list
          [Value.dict [("name", Value.str "x"), ("value", Value.str "A")]])], ["x"])
    ∧ producedPerClaim [] mC5 "x" = false :=
  ⟨rfl, rfl⟩

/-- **C2, counterexample.** In a typed-variable collection a mapped rule does
not overwrite a constant of the same target name: `_add_var` appends.  With
constant `string` variable `x = "A"` and a resolving rule `x ← record["k"]`
(`= "B"`), the built `stringVariables` holds two entries named `x` (the
constant first, the mapped value second), refuting both the overwrite and the
no-duplicate-names parts of the claim for typed collections. -/
theorem C2_counterexample :
    coPart extC2 mC2
      = Except.ok ([("stringVariables", Value.list
          [Value.dict [("name", Value.str "x"), ("value", Value.str "A")],
           Value.dict [("name", Value.str "x"), ("value", Value.str "B")]])], ["x", "x"])
    ∧ entryNames
        [Value.dict [("name", Value.str "x"), ("value", Value.str "A")],
         Value.dict [("name", Value.str "x"), ("value", Value.str "B")]] = ["x", "x"]
    ∧ ¬ (["x", "x"].Nodup) :=
  ⟨rfl, rfl, by decide⟩

/-- **C1, counterexample.** The missing-required list is reported in the
iteration order of `set(required_odm)` — which is arbitrary in CPython
(string-hash randomization) — and is never sorted.  Under the legitimate set
order that enumerates `{"b", "a"}` as `["b", "a"]` (modelled by `id`), a build
with no produced targets fails carrying `["b", "a"]`: the full list of missing
names, but not sorted. -/
theorem C1_counterexample :
    (buildRequestFromMappingFile (Engine.mk none) [] mC1 none true "f" id).1
      = Except.error (PyErr.missingRequired ["b", "a"])
    ∧ sortedStrings ["b", "a"] = false :=
  ⟨rfl, rfl⟩

/-! ### Dictionary lemmas -/

theorem dictSet_cons_ne (p : String × Value) (d : Dict) (k : String) (v : Value)
    (hp : ¬ p.1 = k) : dictSet (p :: d) k v = p :: dictSet d k v := by
  unfold dictSet dictHasKey
  simp only [dictGet, hp, if_false]
  by_cases h : (dictGet d k).isSome = true
  · simp [h, hp]
  · simp [h, hp]

theorem dictGet_dictSet (d : Dict) (k : String) (v : Value) :
    dictGet (dictSet d k v) k = some v := by
  induction d with
  | nil => simp [dictSet, dictHasKey, dictGet]
  | cons p rest ih =>
    by_cases hp : p.1 = k
    · unfold dictSet dictHasKey
      simp [dictGet, hp]
    · rw [dictSet_cons_ne p rest k v hp]
      simp [dictGet, hp, ih]

/-- Every failure of `_normalize_date` is an `InvalidDateError`. -/
theorem normalizeDate_error_shape (v : Value) (f : Option String) (err : PyErr)
    (h : normalizeDate v f = Except.error err) : ∃ s, err = PyErr.invalidDate s := by
  unfold normalizeDate at h
  split at h
  · simp at h
  · split at h
    · simp at h
    · dsimp only at h
      split at h
      · split at h
        · simp at h
        · exact ⟨_, (Except.error.inj h).symm⟩
      · split at h
        · simp at h
        · exact ⟨_, (Except.error.inj h).symm⟩
    · exact ⟨_, (Except.error.inj h).symm⟩

/-- Every failure of the date step is an `InvalidDateError`. -/
theorem stepDate_error_shape (v : Value) (cfg : Dict) (err : PyErr)
    (h : stepDate v cfg = Except.error err) : ∃ s, err = PyErr.invalidDate s := by
  unfold stepDate at h
  split at h
  · exact normalizeDate_error_shape _ _ _ h
  · simp at h

/-- Every failure of the exact-substitution step is a `TypeError` (from
hashing an unhashable key). -/
theorem stepMap_error_shape (v : Value) (cfg : Dict) (err : PyErr)
    (h : stepMap v cfg = Except.error err) : ∃ s, err = PyErr.typeError s := by
  unfold stepMap at h
  dsimp only at h
  split at h
  · split at h <;> first
      | exact ⟨_, (Except.error.inj h).symm⟩
      | exact Except.noConfusion h
  · exact Except.noConfusion h

/-- Every failure of the boolean-substitution step is a `TypeError` (from
hashing an unhashable key). -/
theorem stepBool_error_shape (v : Value) (cfg : Dict) (err : PyErr)
    (h : stepBool v cfg = Except.error err) : ∃ s, err = PyErr.typeError s := by
  unfold stepBool at h
  split at h
  · split at h <;> first
      | exact ⟨_, (Except.error.inj h).symm⟩
      | exact Except.noConfusion h
  · exact Except.noConfusion h

/-- **C4, counterexample.** The pipeline can fail outside the
date-normalization step: with `split_csv` and a `bool_map` configured, a plain
string input is split into a list, and `cfg["bool_map"].get(value,
bool(value))` (line 200) then hashes that unhashable list and raises a
`TypeError` — not an `InvalidDateError`. -/
theorem C4_counterexample :
    applyTransform (Value.str "1,2")
        [("split_csv", Value.bool true), ("bool_map", Value.dict [("S", Value.bool true)])]
      = Except.error (PyErr.typeError "unhashable type: list") := rfl

/-- **C4, amended.** The transform pipeline never fails except with an
`InvalidDateError` from the date-normalization step or a Python `TypeError`
from the exact-substitution or boolean-substitution steps hashing an
unhashable (list or dict) value; when no substitution table (`map_from`, `map`
or `bool_map`) is configured, only the `InvalidDateError` remains possible.
The numeric-scaling step leaves a value whose float cast fails unchanged
instead of raising. -/
theorem C4_amended :
    (∀ (v : Value) (cfg : Dict),
        (∃ w, applyTransform v cfg = Except.ok w)
        ∨ (∃ s, applyTransform v cfg = Except.error (PyErr.invalidDate s))
        ∨ (∃ s, applyTransform v cfg = Except.error (PyErr.typeError s)))
    ∧ (∀ (v : Value) (cfg : Dict),
        dictGet cfg "map_from" = none → dictGet cfg "map" = none →
        dictGet cfg "bool_map" = none →
        ((∃ w, applyTransform v cfg = Except.ok w)
          ∨ (∃ s, applyTransform v cfg = Except.error (PyErr.invalidDate s))))
    ∧ (∀ (v : Value) (cfg : Dict), v ≠ Value.null → pyFloat v = none →
        stepScale v cfg = v) := by
  refine ⟨?_, ?_, ?_⟩
  · intro v cfg
    unfold applyTransform
    dsimp only
    cases hm : stepMap (stepDefault v cfg) cfg with
    | error e =>
      obtain ⟨s, rfl⟩ := stepMap_error_shape _ _ _ hm
      exact Or.inr (Or.inr ⟨s, rfl⟩)
    | ok v2 =>
      dsimp only
      cases hd : stepDate (stepSplit v2 cfg) cfg with
      | error e =>
        obtain ⟨s, rfl⟩ := stepDate_error_shape _ _ _ hd
        exact Or.inr (Or.inl ⟨s, rfl⟩)
      | ok v4 =>
        dsimp only
        cases hb : stepBool (stepCase v4 cfg) cfg with
        | error e =>
          obtain ⟨s, rfl⟩ := stepBool_error_shape _ _ _ hb
          exact Or.inr (Or.inr ⟨s, rfl⟩)
        | ok v5 => exact Or.inl ⟨_, rfl⟩
  · intro v cfg h1 h2 h3
    have hsm : ∀ u, stepMap u cfg = Except.ok u := by
      intro u
      simp [stepMap, h1, h2]
    have hsb : ∀ u, stepBool u cfg = Except.ok u := by
      intro u
      simp [stepBool, h3]
    unfold applyTransform
    dsimp only
    rw [hsm]
    dsimp only
    cases hd : stepDate (stepSplit (stepDefault v cfg) cfg) cfg with
    | error e =>
      obtain ⟨s, rfl⟩ := stepDate_error_shape _ _ _ hd
      exact Or.inr ⟨s, rfl⟩
    | ok v4 =>
      dsimp only
      rw [hsb]
      exact Or.inl ⟨_, rfl⟩
  · intro v cfg hv hf
    unfold stepScale
    cases hsc : dictGet cfg "scale" with
    | none => rfl
    | some sc =>
      cases v with
      | null => exact absurd rfl hv
      | str s => simp_all [pyFloat]
      | int n => simp_all [pyFloat]
      | float q => simp_all [pyFloat]
      | bool b => simp_all [pyFloat]
      | pydate y m d => simp_all [pyFloat]
      | list l => simp_all [pyFloat]
      | dict m => simp_all [pyFloat]

/-- Witness for `C4_amended`: with no substitution tables configured the
pipeline on `"abc"` does not fail, and `"abc"` (not castable) with a `scale`
directive is left unchanged by the scaling step. -/
theorem C4_witness :
    ((∃ w, applyTransform (Value.str "abc") [] = Except.ok w)
      ∨ (∃ s, applyTransform (Value.str "abc") [] = Except.error (PyErr.invalidDate s)))
    ∧ stepScale (Value.str "abc") [("scale", Value.int 2)] = Value.str "abc" :=
  ⟨C4_amended.2.1 (Value.str "abc") [] rfl rfl rfl,
   C4_amended.2.2 (Value.str "abc") [("scale", Value.int 2)]
     (fun h => Value.noConfusion h) rfl⟩

/-- **C6.** For a rule whose source key is absent from the record: with a
configured default, the default is emitted verbatim (it reaches the scalar
section, resp. `_add_var`, without passing through `_apply_transform`) and the
target is recorded as produced; with no default, the accumulator is unchanged
(no value, not produced).  This covers both the scalar loop and the
typed-variable loop. -/
theorem C6_missing_source (ext : Dict) (co : Dict) (prod : List String)
    (name vt : String) (sp : RuleSpec)
    (habs : srcPresent ext (splitSpec sp).1 = false) :
    (∀ d, dictGet (splitSpec sp).2 "default" = some d →
        processScalarRule ext (co, prod) (name, sp)
            = Except.ok (dictSet co name d, prod ++ [name])
        ∧ processVarRule ext vt (co, prod) (name, sp)
            = (match addVar co vt name d with
               | Except.ok co1 => Except.ok (co1, prod ++ [name])
               | Except.error err => Except.error err))
    ∧ (dictGet (splitSpec sp).2 "default" = none →
        processScalarRule ext (co, prod) (name, sp) = Except.ok (co, prod)
        ∧ processVarRule ext vt (co, prod) (name, sp) = Except.ok (co, prod)) := by
  constructor
  · intro d hd
    constructor
    · simp [processScalarRule, habs, hd]
    · simp [processVarRule, habs, hd]
  · intro hd
    constructor
    · simp [processScalarRule, habs, hd]
    · simp [processVarRule, habs, hd]

/-- Witness for `C6_missing_source`: rule `{from: "k", default: "D"}` against
the empty record. -/
theorem C6_witness :
    processScalarRule [] ([], [])
        ("t", RuleSpec.full [("from", Value.str "k"), ("default", Value.str "D")])
      = Except.ok (dictSet [] "t" (Value.str "D"), [] ++ ["t"])
    ∧ processVarRule [] "string" ([], [])
        ("t", RuleSpec.full [("from", Value.str "k"), ("default", Value.str "D")])
      = (match addVar [] "string" "t" (Value.str "D") with
         | Except.ok co1 => Except.ok (co1, [] ++ ["t"])
         | Except.error err => Except.error err) :=
  (C6_missing_source [] [] [] "t" "string"
      (RuleSpec.full [("from", Value.str "k"), ("default", Value.str "D")]) rfl).1
    (Value.str "D") rfl

/-- **C10.** A scalar rule whose source key is present and whose pipeline
result is `null` still writes the target into the scalar section with value
`null` (the entry is not dropped), while a typed-variable rule in the same
situation emits no collection entry (`_add_var` is a no-op on `None`) though
the target is still recorded as produced. -/
theorem C10_null_pipeline (ext : Dict) (co : Dict) (prod : List String)
    (name vt : String) (sp : RuleSpec)
    (hpres : srcPresent ext (splitSpec sp).1 = true)
    (hnull : applyTransform (extGet ext (splitSpec sp).1) (splitSpec sp).2
        = Except.ok Value.null) :
    processScalarRule ext (co, prod) (name, sp)
        = Except.ok (dictSet co name Value.null, prod ++ [name])
    ∧ dictGet (dictSet co name Value.null) name = some Value.null
    ∧ processVarRule ext vt (co, prod) (name, sp) = Except.ok (co, prod ++ [name]) := by
  refine ⟨?_, dictGet_dictSet co name Value.null, ?_⟩
  · simp [processScalarRule, hpres, hnull]
  · simp [processVarRule, hpres, hnull, addVar]

/-- Witness for `C10_null_pipeline`: shorthand rule `"k"` against a record
where `k` is present but `None`. -/
theorem C10_witness :
    processScalarRule [("k", Value.null)] ([], []) ("t", RuleSpec.shorthand "k")
        = Except.ok (dictSet [] "t" Value.null, [] ++ ["t"])
    ∧ dictGet (dictSet [] "t" Value.null) "t" = some Value.null
    ∧ processVarRule [("k", Value.null)] "string" ([], []) ("t", RuleSpec.shorthand "k")
        = Except.ok ([], [] ++ ["t"]) :=
  C10_null_pipeline [("k", Value.null)] [] [] "t" "string" (RuleSpec.shorthand "k") rfl rfl

/-- A freshly generated decision token is never the empty string. -/
theorem decision_token_ne_empty (f : String) : ¬ ("Decision_" ++ f) = "" := by
  intro h
  have h2 := congrArg (fun s => s.data.length) h
  simp only [String.data_append, List.length_append] at h2
  simp at h2

/-- The resolved decision identifier is always truthy: either a non-empty
explicit id, a previously held truthy id, or `Decision_<hex>`. -/
theorem truthy_resolveDecId (d : Option String) (s : Option Value) (f : String) :
    truthy (resolveDecId d s f) = true := by
  have hfresh : truthy (Value.str ("Decision_" ++ f)) = true := by
    simp [truthy, decision_token_ne_empty f]
  unfold resolveDecId
  cases d with
  | none =>
    dsimp only
    by_cases hp : truthy (prevDecId s) = true
    · rw [if_pos hp]; exact hp
    · rw [if_neg hp]; exact hfresh
  | some dd =>
    dsimp only
    by_cases hd : dd ≠ ""
    · rw [if_pos hd]; simp [truthy, hd]
    · rw [if_neg hd]
      by_cases hp : truthy (prevDecId s) = true
      · rw [if_pos hp]; exact hp
      · rw [if_neg hp]; exact hfresh

/-- Once a build stored its request, a second identifier resolution against the
stored request returns the same identifier. -/
theorem resolveDecId_stable (d : Option String) (s : Option Value) (f1 f2 : String)
    (co : Value) :
    resolveDecId d (some (Value.dict [("__DecisionID__", resolveDecId d s f1),
        ("coRequest", co)])) f2 = resolveDecId d s f1 := by
  have hI := truthy_resolveDecId d s f1
  generalize hIdef : resolveDecId d s f1 = I
  rw [hIdef] at hI
  have hprev : prevDecId (some (Value.dict [("__DecisionID__", I),
      ("coRequest", co)])) = I := rfl
  cases d with
  | none =>
    unfold resolveDecId
    dsimp only
    rw [hprev, if_pos hI]
  | some dd =>
    unfold resolveDecId at hIdef ⊢
    dsimp only at hIdef ⊢
    by_cases hd : dd ≠ ""
    · rw [if_pos hd] at hIdef ⊢
      exact hIdef
    · rw [if_neg hd] at hIdef ⊢
      rw [hprev, if_pos hI]

/-- **C8.** Determinism: for a fixed `(record, mapping, identifierOverride)`
(and the process-fixed set-iteration order), running `build` twice in a row on
the same engine yields the same result — the second call reuses the held
decision identifier, and everything else is a pure function of the inputs. -/
theorem C8_determinism (e : Engine) (ext : Dict) (m : Mapping)
    (decisionId : Option String) (validateRequired : Bool) (f1 f2 : String)
    (setOrder : List String → List String) :
    (buildRequestFromMappingFile
        (buildRequestFromMappingFile e ext m decisionId validateRequired f1 setOrder).2
        ext m decisionId validateRequired f2 setOrder).1
      = (buildRequestFromMappingFile e ext m decisionId validateRequired f1 setOrder).1 := by
  cases hco : coPart ext m with
  | error err =>
    have hb : ∀ (en : Engine) (f : String),
        buildRequestFromMappingFile en ext m decisionId validateRequired f setOrder
          = (Except.error err, en) := by
      intro en f
      unfold buildRequestFromMappingFile buildByOdmKeys
      rw [hco]
    rw [hb, hb]
  | ok pr =>
    obtain ⟨co, prod⟩ := pr
    have hbb : ∀ (slot : Option Value) (f : String),
        buildByOdmKeys ext m decisionId slot f
          = Except.ok (Value.dict [("__DecisionID__", resolveDecId decisionId slot f),
              ("coRequest", Value.dict co)], prod) := by
      intro slot f
      unfold buildByOdmKeys
      rw [hco]
    by_cases hval : validateRequired = true
    · by_cases hm :
          ((setOrder m.required_odm).filter (fun t => ¬ prod.contains t)).isEmpty = true
      · have h1 : buildRequestFromMappingFile e ext m decisionId validateRequired f1 setOrder
            = (Except.ok (Value.dict
                [("__DecisionID__", resolveDecId decisionId e.odm_request f1),
                 ("coRequest", Value.dict co)]),
               Engine.mk (some (Value.dict
                [("__DecisionID__", resolveDecId decisionId e.odm_request f1),
                 ("coRequest", Value.dict co)]))) := by
          unfold buildRequestFromMappingFile
          rw [hbb e.odm_request f1]
          dsimp only
          rw [hval, if_pos rfl, if_pos hm]
        rw [h1]
        unfold buildRequestFromMappingFile
        rw [hbb _ f2]
        dsimp only
        rw [hval, if_pos rfl, if_pos hm]
        dsimp only
        rw [resolveDecId_stable decisionId e.odm_request f1 f2 (Value.dict co)]
      · have h1 : ∀ (en : Engine) (f : String),
            buildRequestFromMappingFile en ext m decisionId validateRequired f setOrder
              = (Except.error (PyErr.missingRequired
                  ((setOrder m.required_odm).filter (fun t => ¬ prod.contains t))), en) := by
          intro en f
          unfold buildRequestFromMappingFile
          rw [hbb en.odm_request f]
          dsimp only
          rw [hval, if_pos rfl, if_neg hm]
        rw [h1, h1]
    · have h1 : buildRequestFromMappingFile e ext m decisionId validateRequired f1 setOrder
          = (Except.ok (Value.dict
              [("__DecisionID__", resolveDecId decisionId e.odm_request f1),
               ("coRequest", Value.dict co)]),
             Engine.mk (some (Value.dict
              [("__DecisionID__", resolveDecId decisionId e.odm_request f1),
               ("coRequest", Value.dict co)]))) := by
        unfold buildRequestFromMappingFile
        rw [hbb e.odm_request f1]
        dsimp only
        rw [if_neg hval]
      rw [h1]
      unfold buildRequestFromMappingFile
      rw [hbb _ f2]
      dsimp only
      rw [if_neg hval]
      dsimp only
      rw [resolveDecId_stable decisionId e.odm_request f1 f2 (Value.dict co)]

/-- **C1, amended.** With validation enabled, if some required target was not
produced, the build fails with `MissingRequiredFieldsError` carrying the full
list of missing targets — every required-but-unproduced name and nothing else
— in the iteration order of `set(required_odm)` (not necessarily sorted). -/
theorem C1_amended (e : Engine) (ext : Dict) (m : Mapping) (decisionId : Option String)
    (freshHex : String) (setOrder : List String → List String)
    (hord : ∀ t, t ∈ setOrder m.required_odm ↔ t ∈ m.required_odm)
    (req : Value) (prod : List String)
    (hbuild : buildByOdmKeys ext m decisionId e.odm_request freshHex
        = Except.ok (req, prod))
    (t0 : String) (ht0 : t0 ∈ m.required_odm) (ht0p : ¬ t0 ∈ prod) :
    buildRequestFromMappingFile e ext m decisionId true freshHex setOrder
        = (Except.error (PyErr.missingRequired
            ((setOrder m.required_odm).filter (fun t => ¬ prod.contains t))), e)
    ∧ (∀ t, t ∈ (setOrder m.required_odm).filter (fun t => ¬ prod.contains t)
          ↔ (t ∈ m.required_odm ∧ ¬ t ∈ prod)) := by
  have hmem : ∀ t, t ∈ (setOrder m.required_odm).filter (fun t => ¬ prod.contains t)
      ↔ (t ∈ m.required_odm ∧ ¬ t ∈ prod) := by
    intro t
    rw [List.mem_filter]
    constructor
    · rintro ⟨hts, htc⟩
      refine ⟨(hord t).mp hts, ?_⟩
      simpa using htc
    · rintro ⟨htr, htp⟩
      refine ⟨(hord t).mpr htr, ?_⟩
      simpa using htp
  refine ⟨?_, hmem⟩
  have ht0m : t0 ∈ (setOrder m.required_odm).filter (fun t => ¬ prod.contains t) :=
    (hmem t0).mpr ⟨ht0, ht0p⟩
  have hne : ¬ ((setOrder m.required_odm).filter
      (fun t => ¬ prod.contains t)).isEmpty = true := by
    have := List.ne_nil_of_mem ht0m
    simpa [List.isEmpty_iff] using this
  unfold buildRequestFromMappingFile
  rw [hbuild]
  dsimp only
  rw [if_pos rfl, if_neg hne]

/-- Witness for `C1_amended`: one required target `"a"`, empty record, no
rules; the build fails carrying exactly `["a"]`. -/
theorem C1_witness :
    buildRequestFromMappingFile (Engine.mk none) [] { required_odm := ["a"] } none true "f" id
      = (Except.error (PyErr.missingRequired
          ((id (["a"] : List String)).filter (fun t => ¬ ([] : List String).contains t))),
         Engine.mk none) :=
  (C1_amended (Engine.mk none) [] { required_odm := ["a"] } none "f" id
    (fun _ => Iff.rfl) _ [] rfl "a" (by decide) (by decide)).1

/-- The produced-list effect of one scalar-rule iteration: the target is
appended exactly when the rule resolves or defaults. -/
theorem processScalarRule_prod (ext : Dict) (acc : Dict × List String)
    (e : String × RuleSpec) (acc1 : Dict × List String)
    (h : processScalarRule ext acc e = Except.ok acc1) :
    acc1.2 = if ruleProduces ext e.2 then acc.2 ++ [e.1] else acc.2 := by
  unfold processScalarRule at h
  unfold ruleProduces
  dsimp only at h ⊢
  by_cases hs : srcPresent ext (splitSpec e.2).1 = true
  · rw [if_pos hs] at h
    cases ha : applyTransform (extGet ext (splitSpec e.2).1) (splitSpec e.2).2 with
    | ok val =>
      rw [ha] at h
      have := (Except.ok.inj h)
      rw [← this]
      simp [hs]
    | error err =>
      rw [ha] at h
      simp at h
  · rw [if_neg hs] at h
    cases hd : dictGet (splitSpec e.2).2 "default" with
    | some d =>
      rw [hd] at h
      have := (Except.ok.inj h)
      rw [← this]
      simp [hs, hd]
    | none =>
      rw [hd] at h
      have := (Except.ok.inj h)
      rw [← this]
      simp [hs, hd]

/-- The produced-list effect of one typed-variable-rule iteration: identical
appending discipline to the scalar loop. -/
theorem processVarRule_prod (ext : Dict) (vt : String) (acc : Dict × List String)
    (e : String × RuleSpec) (acc1 : Dict × List String)
    (h : processVarRule ext vt acc e = Except.ok acc1) :
    acc1.2 = if ruleProduces ext e.2 then acc.2 ++ [e.1] else acc.2 := by
  unfold processVarRule at h
  unfold ruleProduces
  dsimp only at h ⊢
  by_cases hs : srcPresent ext (splitSpec e.2).1 = true
  · rw [if_pos hs] at h
    cases ha : applyTransform (extGet ext (splitSpec e.2).1) (splitSpec e.2).2 with
    | ok val =>
      rw [ha] at h
      dsimp only at h
      cases hv : addVar acc.1 vt e.1 val with
      | ok co1 =>
        rw [hv] at h
        have := (Except.ok.inj h)
        rw [← this]
        simp [hs]
      | error err => rw [hv] at h; simp at h
    | error err => rw [ha] at h; simp at h
  · rw [if_neg hs] at h
    cases hd : dictGet (splitSpec e.2).2 "default" with
    | some d =>
      rw [hd] at h
      dsimp only at h
      cases hv : addVar acc.1 vt e.1 d with
      | ok co1 =>
        rw [hv] at h
        have := (Except.ok.inj h)
        rw [← this]
        simp [hs, hd]
      | error err => rw [hv] at h; simp at h
    | none =>
      rw [hd] at h
      have := (Except.ok.inj h)
      rw [← this]
      simp [hs, hd]

/-- Produced-name membership across the whole scalar-rules loop. -/
theorem processScalarRules_mem (ext : Dict) (rules : List (String × RuleSpec))
    (acc acc1 : Dict × List String)
    (h : processScalarRules ext rules acc = Except.ok acc1) (n : String) :
    n ∈ acc1.2 ↔ n ∈ acc.2 ∨ ∃ sp, (n, sp) ∈ rules ∧ ruleProduces ext sp = true := by
  induction rules generalizing acc with
  | nil =>
    unfold processScalarRules at h
    rw [← Except.ok.inj h]
    simp
  | cons e rest ih =>
    obtain ⟨nm, sp0⟩ := e
    unfold processScalarRules at h
    cases hstep : processScalarRule ext acc (nm, sp0) with
    | error err => rw [hstep] at h; simp at h
    | ok accm =>
      rw [hstep] at h
      have hp := processScalarRule_prod ext acc (nm, sp0) accm hstep
      rw [ih accm h, hp]
      by_cases hpr : ruleProduces ext sp0 = true
      · rw [if_pos hpr]
        simp only [List.mem_append, List.mem_cons, List.not_mem_nil, or_false, Prod.mk.injEq]
        constructor
        · rintro ((h1 | h1) | ⟨sp, hm, hpp⟩)
          · exact Or.inl h1
          · exact Or.inr ⟨sp0, Or.inl ⟨h1, rfl⟩, hpr⟩
          · exact Or.inr ⟨sp, Or.inr hm, hpp⟩
        · rintro (h1 | ⟨sp, (⟨h1, h2⟩ | hm), hpp⟩)
          · exact Or.inl (Or.inl h1)
          · exact Or.inl (Or.inr h1)
          · exact Or.inr ⟨sp, hm, hpp⟩
      · rw [if_neg hpr]
        simp only [List.mem_cons, Prod.mk.injEq]
        constructor
        · rintro (h1 | ⟨sp, hm, hpp⟩)
          · exact Or.inl h1
          · exact Or.inr ⟨sp, Or.inr hm, hpp⟩
        · rintro (h1 | ⟨sp, (⟨h1, h2⟩ | hm), hpp⟩)
          · exact Or.inl h1
          · exact absurd (h2 ▸ hpp) hpr
          · exact Or.inr ⟨sp, hm, hpp⟩

/-- Produced-name membership across one typed-variable rule group. -/
theorem processVarGroup_mem (ext : Dict) (vt : String)
    (rules : List (String × RuleSpec)) (acc acc1 : Dict × List String)
    (h : processVarGroup ext vt rules acc = Except.ok acc1) (n : String) :
    n ∈ acc1.2 ↔ n ∈ acc.2 ∨ ∃ sp, (n, sp) ∈ rules ∧ ruleProduces ext sp = true := by
  induction rules generalizing acc with
  | nil =>
    unfold processVarGroup at h
    rw [← Except.ok.inj h]
    simp
  | cons e rest ih =>
    obtain ⟨nm, sp0⟩ := e
    unfold processVarGroup at h
    cases hstep : processVarRule ext vt acc (nm, sp0) with
    | error err => rw [hstep] at h; simp at h
    | ok accm =>
      rw [hstep] at h
      have hp := processVarRule_prod ext vt acc (nm, sp0) accm hstep
      rw [ih accm h, hp]
      by_cases hpr : ruleProduces ext sp0 = true
      · rw [if_pos hpr]
        simp only [List.mem_append, List.mem_cons, List.not_mem_nil, or_false, Prod.mk.injEq]
        constructor
        · rintro ((h1 | h1) | ⟨sp, hm, hpp⟩)
          · exact Or.inl h1
          · exact Or.inr ⟨sp0, Or.inl ⟨h1, rfl⟩, hpr⟩
          · exact Or.inr ⟨sp, Or.inr hm, hpp⟩
        · rintro (h1 | ⟨sp, (⟨h1, h2⟩ | hm), hpp⟩)
          · exact Or.inl (Or.inl h1)
          · exact Or.inl (Or.inr h1)
          · exact Or.inr ⟨sp, hm, hpp⟩
      · rw [if_neg hpr]
        simp only [List.mem_cons, Prod.mk.injEq]
        constructor
        · rintro (h1 | ⟨sp, hm, hpp⟩)
          · exact Or.inl h1
          · exact Or.inr ⟨sp, Or.inr hm, hpp⟩
        · rintro (h1 | ⟨sp, (⟨h1, h2⟩ | hm), hpp⟩)
          · exact Or.inl h1
          · exact absurd (h2 ▸ hpp) hpr
          · exact Or.inr ⟨sp, hm, hpp⟩

/-- Produced-name membership across all typed-variable rule groups. -/
theorem processVarGroups_mem (ext : Dict)
    (groups : List (String × List (String × RuleSpec))) (acc acc1 : Dict × List String)
    (h : processVarGroups ext groups acc = Except.ok acc1) (n : String) :
    n ∈ acc1.2 ↔ n ∈ acc.2
      ∨ ∃ g, g ∈ groups ∧ ∃ sp, (n, sp) ∈ g.2 ∧ ruleProduces ext sp = true := by
  induction groups generalizing acc with
  | nil =>
    unfold processVarGroups at h
    rw [← Except.ok.inj h]
    simp
  | cons g rest ih =>
    unfold processVarGroups at h
    cases hstep : processVarGroup ext g.1 g.2 acc with
    | error err => rw [hstep] at h; simp at h
    | ok accm =>
      rw [hstep] at h
      rw [ih accm h, processVarGroup_mem ext g.1 g.2 acc accm hstep n]
      simp only [List.mem_cons]
      constructor
      · rintro ((h1 | ⟨sp, hm, hpp⟩) | ⟨g2, hg2, hrest⟩)
        · exact Or.inl h1
        · exact Or.inr ⟨g, Or.inl rfl, sp, hm, hpp⟩
        · exact Or.inr ⟨g2, Or.inr hg2, hrest⟩
      · rintro (h1 | ⟨g2, (hg2 | hg2), hrest⟩)
        · exact Or.inl (Or.inl h1)
        · exact Or.inl (Or.inr (hg2 ▸ hrest))
        · exact Or.inr ⟨g2, hg2, hrest⟩

/-- Produced-name membership across one constant-variable group. -/
theorem processConstVarGroup_mem (vt : String) (entries : List (String × Value))
    (acc acc1 : Dict × List String)
    (h : processConstVarGroup vt entries acc = Except.ok acc1) (n : String) :
    n ∈ acc1.2 ↔ n ∈ acc.2 ∨ n ∈ entries.map Prod.fst := by
  induction entries generalizing acc with
  | nil =>
    unfold processConstVarGroup at h
    rw [← Except.ok.inj h]
    simp
  | cons e rest ih =>
    unfold processConstVarGroup at h
    cases hv : addVar acc.1 vt e.1 e.2 with
    | error err => rw [hv] at h; simp at h
    | ok co1 =>
      rw [hv] at h
      rw [ih (co1, acc.2 ++ [e.1]) h]
      simp only [List.mem_append, List.not_mem_nil, or_false, List.map_cons, List.mem_cons]
      constructor
      · rintro ((h1 | h1) | h1)
        · exact Or.inl h1
        · exact Or.inr (Or.inl h1)
        · exact Or.inr (Or.inr h1)
      · rintro (h1 | (h1 | h1))
        · exact Or.inl (Or.inl h1)
        · exact Or.inl (Or.inr h1)
        · exact Or.inr h1

/-- Produced-name membership across all constant-variable groups. -/
theorem processConstVars_mem (groups : List (String × List (String × Value)))
    (acc acc1 : Dict × List String)
    (h : processConstVars groups acc = Except.ok acc1) (n : String) :
    n ∈ acc1.2 ↔ n ∈ acc.2 ∨ ∃ g, g ∈ groups ∧ n ∈ g.2.map Prod.fst := by
  induction groups generalizing acc with
  | nil =>
    unfold processConstVars at h
    rw [← Except.ok.inj h]
    simp
  | cons g rest ih =>
    unfold processConstVars at h
    cases hstep : processConstVarGroup g.1 g.2 acc with
    | error err => rw [hstep] at h; simp at h
    | ok accm =>
      rw [hstep] at h
      rw [ih accm h, processConstVarGroup_mem g.1 g.2 acc accm hstep n]
      simp only [List.mem_cons]
      constructor
      · rintro ((h1 | h1) | ⟨g2, hg2, hrest⟩)
        · exact Or.inl h1
        · exact Or.inr ⟨g, Or.inl rfl, h1⟩
        · exact Or.inr ⟨g2, Or.inr hg2, hrest⟩
      · rintro (h1 | ⟨g2, (hg2 | hg2), hrest⟩)
        · exact Or.inl (Or.inl h1)
        · exact Or.inl (Or.inr (hg2 ▸ hrest))
        · exact Or.inr ⟨g2, hg2, hrest⟩

/-- `constVarNames` holds a name iff some constant group contains it. -/
theorem constVarNames_mem (m : Mapping) (n : String) :
    n ∈ constVarNames m
      ↔ ∃ g, g ∈ m.constants_variables ∧ n ∈ g.2.map Prod.fst := by
  unfold constVarNames
  induction m.constants_variables with
  | nil => simp
  | cons g rest ih =>
    simp only [List.foldr_cons, List.mem_append, List.mem_cons, ih]
    constructor
    · rintro (h1 | ⟨g2, hg2, hrest⟩)
      · exact ⟨g, Or.inl rfl, h1⟩
      · exact ⟨g2, Or.inr hg2, hrest⟩
    · rintro ⟨g2, (hg2 | hg2), hrest⟩
      · exact Or.inl (hg2 ▸ hrest)
      · exact Or.inr ⟨g2, hg2, hrest⟩

/-- **C5, amended.** In a successful build, a target name is recorded as
produced iff a scalar or typed-variable rule for it resolved from the record
or substituted a configured default, **or** the name is a constant
typed-variable entry (the constant-variables loop also records its names as
produced; constant scalars are not recorded). -/
theorem C5_amended (ext : Dict) (m : Mapping) (co : Dict) (prod : List String)
    (h : coPart ext m = Except.ok (co, prod)) (n : String) :
    n ∈ prod ↔
      (∃ sp, (n, sp) ∈ m.co_fields ∧ ruleProduces ext sp = true)
      ∨ n ∈ constVarNames m
      ∨ (∃ g, g ∈ m.variableRules ∧ ∃ sp, (n, sp) ∈ g.2 ∧ ruleProduces ext sp = true) := by
  unfold coPart at h
  dsimp only at h
  cases h1 : processScalarRules ext m.co_fields
      (seedConstScalars m.constants_co_fields [], []) with
  | error err => rw [h1] at h; simp at h
  | ok acc1 =>
    obtain ⟨co1, p1⟩ := acc1
    rw [h1] at h
    dsimp only at h
    cases h2 : processConstVars m.constants_variables (initCollections co1, p1) with
    | error err => rw [h2] at h; simp at h
    | ok acc2 =>
      obtain ⟨co2, p2⟩ := acc2
      rw [h2] at h
      dsimp only at h
      cases h3 : processVarGroups ext m.variableRules (co2, p2) with
      | error err => rw [h3] at h; simp at h
      | ok acc3 =>
        obtain ⟨co3, p3⟩ := acc3
        rw [h3] at h
        dsimp only at h
        have hpair := Except.ok.inj h
        rw [Prod.mk.injEq] at hpair
        rw [← hpair.2]
        have e1 := processScalarRules_mem ext m.co_fields _ _ h1 n
        have e2 := processConstVars_mem m.constants_variables _ _ h2 n
        have e3 := processVarGroups_mem ext m.variableRules _ _ h3 n
        dsimp only at e1 e2 e3
        rw [e3, e2, e1, constVarNames_mem]
        simp only [List.not_mem_nil, false_or]
        constructor
        · rintro ((hA | hB) | hC)
          · exact Or.inl hA
          · exact Or.inr (Or.inl hB)
          · exact Or.inr (Or.inr hC)
        · rintro (hA | hB | hC)
          · exact Or.inl (Or.inl hA)
          · exact Or.inl (Or.inr hB)
          · exact Or.inr hC

/-- Witness for `C5_amended`: the constant-string-variable mapping `mC5` and
the empty record; `"x"` is produced exactly because it is a constant variable
entry. -/
theorem C5_witness :
    ("x" ∈ (["x"] : List String)) ↔
      (∃ sp, ("x", sp) ∈ mC5.co_fields ∧ ruleProduces [] sp = true)
      ∨ "x" ∈ constVarNames mC5
      ∨ (∃ g, g ∈ mC5.variableRules ∧ ∃ sp, ("x", sp) ∈ g.2 ∧ ruleProduces [] sp = true) :=
  C5_amended [] mC5
    [("stringVariables", Value.list
      [Value.dict [("name", Value.str "x"), ("value", Value.str "A")]])]
    ["x"] rfl "x"

/-- A key is absent exactly when `get` misses. -/
theorem dictGet_eq_none_iff (d : Dict) (k : String) :
    dictGet d k = none ↔ ¬ k ∈ d.map Prod.fst := by
  induction d with
  | nil => simp [dictGet]
  | cons p rest ih =>
    by_cases hp : p.1 = k
    · simp [dictGet, hp]
    · simp [dictGet, hp, ih, Ne.symm hp]

/-- `dictSet` either rewrites a value in place (keys unchanged) or appends a
fresh key. -/
theorem keys_dictSet (d : Dict) (k : String) (v : Value) :
    (dictSet d k v).map Prod.fst
      = if dictHasKey d k then d.map Prod.fst else d.map Prod.fst ++ [k] := by
  unfold dictSet
  by_cases h : dictHasKey d k = true
  · rw [if_pos h, if_pos h, List.map_map]
    apply List.map_congr_left
    intro p _
    by_cases hp : p.1 = k
    · simp [hp]
    · simp [hp]
  · rw [if_neg h, if_neg h, List.map_append]
    rfl

theorem nodup_keys_dictSet (d : Dict) (k : String) (v : Value)
    (hd : (d.map Prod.fst).Nodup) : ((dictSet d k v).map Prod.fst).Nodup := by
  rw [keys_dictSet]
  by_cases h : dictHasKey d k = true
  · rwa [if_pos h]
  · rw [if_neg h]
    have hk : ¬ k ∈ d.map Prod.fst := by
      rw [← dictGet_eq_none_iff]
      unfold dictHasKey at h
      cases hg : dictGet d k with
      | none => rfl
      | some x => rw [hg] at h; simp at h
    simp [List.nodup_append, hd, hk]

theorem nodup_keys_dictPop (d : Dict) (k : String)
    (hd : (d.map Prod.fst).Nodup) : ((dictPop d k).map Prod.fst).Nodup :=
  ((List.filter_sublist d).map Prod.fst).nodup hd

theorem nodup_keys_appendEntry (co : Dict) (key name : String) (v : Value)
    (hd : (co.map Prod.fst).Nodup) :
    ((appendEntry co key name v).map Prod.fst).Nodup :=
  nodup_keys_dictSet _ _ _ hd

/-- A successful `_add_var` leaves the collection dict unchanged or performs a
single key update/append. -/
theorem addVar_shape (co : Dict) (vt n : String) (v : Value) (co1 : Dict)
    (h : addVar co vt n v = Except.ok co1) :
    co1 = co ∨ ∃ key nm vv, co1 = appendEntry co key nm vv := by
  unfold addVar at h
  repeat' split at h
  all_goals first
    | exact Or.inl (Except.ok.inj h).symm
    | exact Or.inr ⟨_, _, _, (Except.ok.inj h).symm⟩
    | exact Except.noConfusion h

theorem nodup_keys_addVar (co : Dict) (vt n : String) (v : Value) (co1 : Dict)
    (h : addVar co vt n v = Except.ok co1) (hd : (co.map Prod.fst).Nodup) :
    (co1.map Prod.fst).Nodup := by
  rcases addVar_shape co vt n v co1 h with h1 | ⟨key, nm, vv, h1⟩
  · rwa [h1]
  · rw [h1]; exact nodup_keys_appendEntry co key nm vv hd

theorem nodup_keys_processScalarRule (ext : Dict) (acc : Dict × List String)
    (e : String × RuleSpec) (acc1 : Dict × List String)
    (h : processScalarRule ext acc e = Except.ok acc1)
    (hd : (acc.1.map Prod.fst).Nodup) : (acc1.1.map Prod.fst).Nodup := by
  unfold processScalarRule at h
  dsimp only at h
  by_cases hs : srcPresent ext (splitSpec e.2).1 = true
  · rw [if_pos hs] at h
    cases ha : applyTransform (extGet ext (splitSpec e.2).1) (splitSpec e.2).2 with
    | ok val =>
      rw [ha] at h
      rw [← Except.ok.inj h]
      exact nodup_keys_dictSet _ _ _ hd
    | error err => rw [ha] at h; simp at h
  · rw [if_neg hs] at h
    cases hdd : dictGet (splitSpec e.2).2 "default" with
    | some d =>
      rw [hdd] at h
      rw [← Except.ok.inj h]
      exact nodup_keys_dictSet _ _ _ hd
    | none =>
      rw [hdd] at h
      rw [← Except.ok.inj h]
      exact hd

theorem nodup_keys_processScalarRules (ext : Dict) (rules : List (String × RuleSpec))
    (acc acc1 : Dict × List String)
    (h : processScalarRules ext rules acc = Except.ok acc1)
    (hd : (acc.1.map Prod.fst).Nodup) : (acc1.1.map Prod.fst).Nodup := by
  induction rules generalizing acc with
  | nil =>
    unfold processScalarRules at h
    rw [← Except.ok.inj h]
    exact hd
  | cons e rest ih =>
    unfold processScalarRules at h
    cases hstep : processScalarRule ext acc e with
    | error err => rw [hstep] at h; simp at h
    | ok accm =>
      rw [hstep] at h
      exact ih accm h (nodup_keys_processScalarRule ext acc e accm hstep hd)

theorem nodup_keys_processVarRule (ext : Dict) (vt : String)
    (acc : Dict × List String) (e : String × RuleSpec) (acc1 : Dict × List String)
    (h : processVarRule ext vt acc e = Except.ok acc1)
    (hd : (acc.1.map Prod.fst).Nodup) : (acc1.1.map Prod.fst).Nodup := by
  unfold processVarRule at h
  dsimp only at h
  by_cases hs : srcPresent ext (splitSpec e.2).1 = true
  · rw [if_pos hs] at h
    cases ha : applyTransform (extGet ext (splitSpec e.2).1) (splitSpec e.2).2 with
    | ok val =>
      rw [ha] at h
      dsimp only at h
      cases hv : addVar acc.1 vt e.1 val with
      | ok com =>
        rw [hv] at h
        rw [← Except.ok.inj h]
        exact nodup_keys_addVar _ _ _ _ _ hv hd
      | error err => rw [hv] at h; simp at h
    | error err => rw [ha] at h; simp at h
  · rw [if_neg hs] at h
    cases hdd : dictGet (splitSpec e.2).2 "default" with
    | some d =>
      rw [hdd] at h
      dsimp only at h
      cases hv : addVar acc.1 vt e.1 d with
      | ok com =>
        rw [hv] at h
        rw [← Except.ok.inj h]
        exact nodup_keys_addVar _ _ _ _ _ hv hd
      | error err => rw [hv] at h; simp at h
    | none =>
      rw [hdd] at h
      rw [← Except.ok.inj h]
      exact hd

theorem nodup_keys_processVarGroup (ext : Dict) (vt : String)
    (rules : List (String × RuleSpec)) (acc acc1 : Dict × List String)
    (h : processVarGroup ext vt rules acc = Except.ok acc1)
    (hd : (acc.1.map Prod.fst).Nodup) : (acc1.1.map Prod.fst).Nodup := by
  induction rules generalizing acc with
  | nil =>
    unfold processVarGroup at h
    rw [← Except.ok.inj h]
    exact hd
  | cons e rest ih =>
    unfold processVarGroup at h
    cases hstep : processVarRule ext vt acc e with
    | error err => rw [hstep] at h; simp at h
    | ok accm =>
      rw [hstep] at h
      exact ih accm h (nodup_keys_processVarRule ext vt acc e accm hstep hd)

theorem nodup_keys_processVarGroups (ext : Dict)
    (groups : List (String × List (String × RuleSpec))) (acc acc1 : Dict × List String)
    (h : processVarGroups ext groups acc = Except.ok acc1)
    (hd : (acc.1.map Prod.fst).Nodup) : (acc1.1.map Prod.fst).Nodup := by
  induction groups generalizing acc with
  | nil =>
    unfold processVarGroups at h
    rw [← Except.ok.inj h]
    exact hd
  | cons g rest ih =>
    unfold processVarGroups at h
    cases hstep : processVarGroup ext g.1 g.2 acc with
    | error err => rw [hstep] at h; simp at h
    | ok accm =>
      rw [hstep] at h
      exact ih accm h (nodup_keys_processVarGroup ext g.1 g.2 acc accm hstep hd)

theorem nodup_keys_processConstVarGroup (vt : String)
    (entries : List (String × Value)) (acc acc1 : Dict × List String)
    (h : processConstVarGroup vt entries acc = Except.ok acc1)
    (hd : (acc.1.map Prod.fst).Nodup) : (acc1.1.map Prod.fst).Nodup := by
  induction entries generalizing acc with
  | nil =>
    unfold processConstVarGroup at h
    rw [← Except.ok.inj h]
    exact hd
  | cons e rest ih =>
    unfold processConstVarGroup at h
    cases hv : addVar acc.1 vt e.1 e.2 with
    | error err => rw [hv] at h; simp at h
    | ok co1 =>
      rw [hv] at h
      exact ih (co1, acc.2 ++ [e.1]) h (nodup_keys_addVar _ _ _ _ _ hv hd)

theorem nodup_keys_processConstVars (groups : List (String × List (String × Value)))
    (acc acc1 : Dict × List String)
    (h : processConstVars groups acc = Except.ok acc1)
    (hd : (acc.1.map Prod.fst).Nodup) : (acc1.1.map Prod.fst).Nodup := by
  induction groups generalizing acc with
  | nil =>
    unfold processConstVars at h
    rw [← Except.ok.inj h]
    exact hd
  | cons g rest ih =>
    unfold processConstVars at h
    cases hstep : processConstVarGroup g.1 g.2 acc with
    | error err => rw [hstep] at h; simp at h
    | ok accm =>
      rw [hstep] at h
      exact ih accm h (nodup_keys_processConstVarGroup g.1 g.2 acc accm hstep hd)

theorem nodup_keys_foldl_dictSet (ks : List String) (co : Dict)
    (hd : (co.map Prod.fst).Nodup) :
    ((ks.foldl (fun c k => dictSet c k (Value.list [])) co).map Prod.fst).Nodup := by
  induction ks generalizing co with
  | nil => exact hd
  | cons k rest ih => exact ih (dictSet co k (Value.list [])) (nodup_keys_dictSet _ _ _ hd)

theorem nodup_keys_initCollections (co : Dict) (hd : (co.map Prod.fst).Nodup) :
    ((initCollections co).map Prod.fst).Nodup :=
  nodup_keys_foldl_dictSet collectionKeys co hd

theorem nodup_keys_cleanupCollections (co : Dict) (hd : (co.map Prod.fst).Nodup) :
    ((cleanupCollections co).map Prod.fst).Nodup := by
  unfold cleanupCollections
  generalize collectionKeys = ks
  induction ks generalizing co with
  | nil => exact hd
  | cons k rest ih =>
    rw [List.foldl_cons]
    cases hg : dictGet co k with
    | none => exact ih co hd
    | some v =>
      by_cases ht : truthy v = true
      · simpa [hg, ht] using ih co hd
      · simpa [hg, ht] using ih (dictPop co k) (nodup_keys_dictPop co k hd)

theorem nodup_keys_seedConstScalars (consts : List (String × Value)) (co : Dict)
    (hd : (co.map Prod.fst).Nodup) :
    ((seedConstScalars consts co).map Prod.fst).Nodup := by
  unfold seedConstScalars
  induction consts generalizing co with
  | nil => exact hd
  | cons p rest ih => exact ih (dictSet co p.1 p.2) (nodup_keys_dictSet _ _ _ hd)

/-- **C2, amended.** Constants are applied first in both the scalar section
and the typed collections.  In the scalar section a mapped rule that resolves
overwrites via dict-key update, so the `coRequest` object of a successful
build never holds two fields with the same key.  In the typed collections a
mapped rule appends a new entry instead of overwriting, so a collection can
hold two entries with the same target name (see the counterexample). -/
theorem C2_amended (ext : Dict) (m : Mapping) (co : Dict) (prod : List String)
    (h : coPart ext m = Except.ok (co, prod)) :
    (co.map Prod.fst).Nodup
    ∧ (∀ (co0 : Dict) (p0 : List String) (name : String) (sp : RuleSpec) (val : Value),
        srcPresent ext (splitSpec sp).1 = true →
        applyTransform (extGet ext (splitSpec sp).1) (splitSpec sp).2 = Except.ok val →
        processScalarRule ext (co0, p0) (name, sp)
            = Except.ok (dictSet co0 name val, p0 ++ [name])
          ∧ dictGet (dictSet co0 name val) name = some val) := by
  constructor
  · unfold coPart at h
    dsimp only at h
    cases h1 : processScalarRules ext m.co_fields
        (seedConstScalars m.constants_co_fields [], []) with
    | error err => rw [h1] at h; simp at h
    | ok acc1 =>
      obtain ⟨co1, p1⟩ := acc1
      rw [h1] at h
      dsimp only at h
      cases h2 : processConstVars m.constants_variables (initCollections co1, p1) with
      | error err => rw [h2] at h; simp at h
      | ok acc2 =>
        obtain ⟨co2, p2⟩ := acc2
        rw [h2] at h
        dsimp only at h
        cases h3 : processVarGroups ext m.variableRules (co2, p2) with
        | error err => rw [h3] at h; simp at h
        | ok acc3 =>
          obtain ⟨co3, p3⟩ := acc3
          rw [h3] at h
          dsimp only at h
          have hpair := Except.ok.inj h
          rw [Prod.mk.injEq] at hpair
          rw [← hpair.1]
          have k0 : ((([] : Dict)).map Prod.fst).Nodup := by simp
          have k1 := nodup_keys_seedConstScalars m.constants_co_fields [] k0
          have k2 := nodup_keys_processScalarRules ext m.co_fields _ _ h1 k1
          have k3 := nodup_keys_initCollections co1 k2
          have k4 := nodup_keys_processConstVars m.constants_variables _ _ h2 k3
          have k5 := nodup_keys_processVarGroups ext m.variableRules _ _ h3 k4
          exact nodup_keys_cleanupCollections co3 k5
  · intro co0 p0 name sp val hs ha
    refine ⟨?_, dictGet_dictSet co0 name val⟩
    simp [processScalarRule, hs, ha]

/-- Witness for `C2_amended` at the duplicate-name fixture: the final
`coRequest` keys of the `mC2` build are nonetheless duplicate-free. -/
theorem C2_witness :
    (([("stringVariables", Value.list
        [Value.dict [("name", Value.str "x"), ("value", Value.str "A")],
         Value.dict [("name", Value.str "x"), ("value", Value.str "B")]])] : Dict).map
      Prod.fst).Nodup :=
  (C2_amended extC2 mC2 _ ["x", "x"] rfl).1

/-- Element-wise float coercion fails exactly when some element is not
convertible. -/
theorem mapFloats_eq_none_iff (l : List Value) :
    mapFloats l = none ↔ ∃ x, x ∈ l ∧ pyFloat x = none := by
  induction l with
  | nil => simp [mapFloats]
  | cons x xs ih =>
    unfold mapFloats
    cases hx : pyFloat x with
    | none =>
      simp only [List.mem_cons]
      constructor
      · intro _
        exact ⟨x, Or.inl rfl, hx⟩
      · intro _
        trivial
    | some q =>
      cases hxs : mapFloats xs with
      | none =>
        rw [hxs] at ih
        simp only [List.mem_cons]
        constructor
        · intro _
          obtain ⟨y, hy, hpy⟩ := ih.mp rfl
          exact ⟨y, Or.inr hy, hpy⟩
        · intro _
          trivial
      | some qs =>
        rw [hxs] at ih
        simp only [List.mem_cons]
        constructor
        · intro hc
          simp at hc
        · rintro ⟨y, (hy | hy), hpy⟩
          · rw [hy] at hpy
            rw [hpy] at hx
            simp at hx
          · exact absurd (ih.mpr ⟨y, hy, hpy⟩) (by simp)

/-- **C3, amended.** For a non-null `list_double` value: a sequence is coerced
element-wise, with `TypeCoercionError` exactly when some element is not
convertible.  A scalar is **not** wrapped as a single-element sequence: the
code runs `[float(x) for x in (value or [])]`, so a falsy scalar yields the
empty list, and a truthy scalar is iterated element-wise (the characters of a
string; a non-iterable scalar raises). -/
theorem C3_amended (co : Dict) (name : String) :
    (∀ l, addVar co "list_double" name (Value.list l)
        = (match coerceDoubleList l with
           | Except.ok qs => Except.ok (appendEntry co "listOfDoubleVariables" name
               (Value.list (qs.map Value.float)))
           | Except.error err => Except.error err))
    ∧ (∀ l, (∃ err, coerceDoubleList l = Except.error err)
        ↔ ∃ x, x ∈ l ∧ pyFloat x = none)
    ∧ (∀ v : Value, v ≠ Value.null → isListValue v = false → truthy v = false →
        addVar co "list_double" name v
          = Except.ok (appendEntry co "listOfDoubleVariables" name (Value.list [])))
    ∧ (∀ v : Value, v ≠ Value.null → isListValue v = false → truthy v = true →
        addVar co "list_double" name v
          = (match pyIter v with
             | some elems =>
               (match coerceDoubleList elems with
                | Except.ok qs => Except.ok (appendEntry co "listOfDoubleVariables" name
                    (Value.list (qs.map Value.float)))
                | Except.error err => Except.error err)
             | none => Except.error (PyErr.typeCoercion "not iterable"))) := by
  refine ⟨fun l => rfl, ?_, ?_, ?_⟩
  · intro l
    unfold coerceDoubleList
    rw [← mapFloats_eq_none_iff]
    cases hm : mapFloats l with
    | none => simp
    | some qs => simp
  · intro v hv hl ht
    cases v with
    | null => exact absurd rfl hv
    | str s => simp [addVar, ht]
    | int n => simp [addVar, ht]
    | float q => simp [addVar, ht]
    | bool b => simp [addVar, ht]
    | pydate y m d => simp [truthy] at ht
    | list l => simp [isListValue] at hl
    | dict mm => simp [addVar, ht]
  · intro v hv hl ht
    cases v with
    | null => exact absurd rfl hv
    | str s => simp [addVar, ht]
    | int n => simp [addVar, ht, pyIter]
    | float q => simp [addVar, ht, pyIter]
    | bool b => simp [addVar, ht, pyIter]
    | pydate y m d => simp [addVar, ht, pyIter]
    | list l => simp [isListValue] at hl
    | dict mm => simp [addVar, ht]

/-- Witness for `C3_amended`: a present-but-falsy scalar (the empty string)
appends an entry whose value is the empty list. -/
theorem C3_witness :
    addVar coInit "list_double" "n" (Value.str "")
      = Except.ok (appendEntry coInit "listOfDoubleVariables" "n" (Value.list [])) :=
  (C3_amended coInit "n").2.2.1 (Value.str "") (fun h => Value.noConfusion h) rfl rfl
